import Mathlib

/-!
# NIGHT-RIDER: verification of the hybrid RSA/AES encrypted chat

Shallow embedding of the NIGHT-RIDER repository (C++ TCP chat with
RSA-2048 key exchange and AES-256-CBC message encryption, files
`CryptoHelper.cpp`, `Client.cpp`, `Server.cpp`, `NetworkHelper.cpp`).

Bytes are modelled as `Nat` (values below 256 in all concrete runs),
byte buffers as `List Nat`.  The AES-256 block primitive and the
RSA-OAEP primitive live in OpenSSL (outside this repository); they are
taken as function parameters, together with the contracts OpenSSL
documents for them (a block cipher is a length-preserving permutation
on 16-byte blocks; OAEP decryption under the matching private key
inverts OAEP encryption).  Everything the repository itself implements
— CBC chaining and PKCS#7 padding behaviour selected through
`EVP_aes_256_cbc`, the framing (IV, 4-byte big-endian length,
ciphertext), the receive loops, the handshake sequence — is translated
from the source.
-/

namespace NightRider

/-- XOR of two byte buffers, truncating to the shorter one
(`List.zipWith`); used for CBC chaining. -/
def xorB (a b : List Nat) : List Nat :=
  List.zipWith (fun x y => x ^^^ y) a b

/-- PKCS#7 padding to the 16-byte AES block size, as applied by
`EVP_EncryptUpdate`/`EVP_EncryptFinal_ex` in
`CryptoHelper::AESEncrypt`: always appends between 1 and 16 bytes,
each equal to the number of bytes appended. -/
def pkcs7pad (p : List Nat) : List Nat :=
  p ++ List.replicate (16 - p.length % 16) (16 - p.length % 16)

/-- PKCS#7 unpadding, as performed by `EVP_DecryptFinal_ex` in
`CryptoHelper::AESDecrypt`: the last byte `n` must satisfy
`1 ≤ n ≤ 16`, at most the buffer length, and the last `n` bytes must
all equal `n`; otherwise unpadding fails. -/
def pkcs7unpad (q : List Nat) : Option (List Nat) :=
  q.getLast?.bind fun n =>
    if 1 ≤ n ∧ n ≤ 16 ∧ n ≤ q.length ∧ ((q.drop (q.length - n)).all (fun b => b == n)) = true
    then some (q.take (q.length - n))
    else none

/-- Fuel-driven worker for `toBlocks`; the fuel only makes the
recursion structural and is always supplied ample. -/
def toBlocksF : Nat → List Nat → List (List Nat)
  | 0, _ => []
  | fuel + 1, l => if l = [] then [] else l.take 16 :: toBlocksF fuel (l.drop 16)

/-- Split a byte buffer into consecutive 16-byte blocks (the last block
may be shorter if the length is not a multiple of 16). -/
def toBlocks (l : List Nat) : List (List Nat) :=
  toBlocksF l.length l

/-- CBC encryption over a list of blocks: each plaintext block is
XORed with the previous ciphertext block (the IV for the first) and
passed through the block cipher `encB`.  This is the chaining mode
`EVP_aes_256_cbc` selects in `CryptoHelper::AESEncrypt`. -/
def cbcEnc (encB : List Nat → List Nat) (iv : List Nat) : List (List Nat) → List (List Nat)
  | [] => []
  | b :: bs =>
    let c := encB (xorB iv b)
    c :: cbcEnc encB c bs

/-- CBC decryption over a list of blocks, inverse chaining of
`cbcEnc`; the mode `EVP_aes_256_cbc` selects in
`CryptoHelper::AESDecrypt`. -/
def cbcDec (decB : List Nat → List Nat) (iv : List Nat) : List (List Nat) → List (List Nat)
  | [] => []
  | c :: cs => xorB iv (decB c) :: cbcDec decB c cs

/-- `CryptoHelper::AESEncrypt` (CryptoHelper.cpp lines 327–348):
draws 16 random bytes for the IV (`RAND_bytes`, modelled by the
`ivRand` entropy parameter, of which exactly `AES_BLOCK_SIZE = 16`
bytes are used), PKCS#7-pads the plaintext and CBC-encrypts it under
the session key.  Returns `(outIV, ciphertext)`.  The AES-256 block
primitive is the parameter `encB` applied to the 32-byte key. -/
def AESEncrypt (encB : List Nat → List Nat → List Nat) (key : List Nat)
    (ivRand : List Nat) (plaintext : List Nat) : List Nat × List Nat :=
  let iv := ivRand.take 16
  (iv, (cbcEnc (encB key) iv (toBlocks (pkcs7pad plaintext))).flatten)

/-- `CryptoHelper::AESDecrypt` (CryptoHelper.cpp lines 357–378), with
the success/failure distinction made explicit: CBC-decrypts and
unpads; returns `none` exactly when `EVP_DecryptFinal_ex` fails
(ciphertext not a positive multiple of the block size, or invalid
PKCS#7 padding after decryption). -/
def AESDecryptE (decB : List Nat → List Nat → List Nat) (key : List Nat)
    (ciphertext iv : List Nat) : Option (List Nat) :=
  if ciphertext.length % 16 = 0 then
    pkcs7unpad (cbcDec (decB key) iv (toBlocks ciphertext)).flatten
  else none

/-- `CryptoHelper::AESDecrypt` as seen by its callers: on failure the
function returns the empty string (`return {}` at line 372), on
success the recovered plaintext bytes. -/
def AESDecrypt (decB : List Nat → List Nat → List Nat) (key : List Nat)
    (ciphertext iv : List Nat) : List Nat :=
  (AESDecryptE decB key ciphertext iv).getD []

/-- Identity block cipher, a trivially valid instantiation of the
block-cipher contract, used to evaluate the embedding on concrete
inputs. -/
def idBlock : List Nat → List Nat → List Nat := fun _ b => b

/-- Big-endian 4-byte encoding of a 32-bit length, as produced by
`htonl` plus the byte-wise copy into `len4` in
`Client::SendEncryptedMessage` (Client.cpp lines 97–102). -/
def be32enc (n : Nat) : List Nat :=
  [n / 2 ^ 24 % 256, n / 2 ^ 16 % 256, n / 2 ^ 8 % 256, n % 256]

/-- Big-endian decoding of the 4-byte length field, as performed by
`memcpy` plus `ntohl` in the receive loops (Server.cpp lines 110–112,
Client.cpp lines 157–159). -/
def be32dec (l : List Nat) : Nat :=
  ((l.getD 0 0 * 256 + l.getD 1 0) * 256 + l.getD 2 0) * 256 + l.getD 3 0

/-- One frame as put on the wire by `Client::SendEncryptedMessage`
(Client.cpp lines 90–106) and `Server::SendEncryptedMessageLoop`
(Server.cpp lines 144–153): the 16-byte IV, the 4-byte big-endian
ciphertext length, then the ciphertext, in three consecutive reliable
writes (`NetworkHelper::SendAll` retries until complete). -/
def writeFrame (iv ciphertext : List Nat) : List Nat :=
  iv ++ be32enc ciphertext.length ++ ciphertext

/-- Result of one iteration of the frame-reading head of the receive
loops.  `closed` models the `iv.empty()` branch ("connection closed"),
`lenError` the `len4.size() != 4` branch, `dataError` the
`cipher.empty()` branch, `crash` the uncaught `std::length_error`
raised when the announced ciphertext length does not fit in a
non-negative `int` (see `recvFrameStep`), and `frame` a structurally
complete frame together with the unconsumed remainder of the
stream. -/
inductive RecvStep where
  | closed
  | lenError
  | dataError
  | crash
  | frame (iv ciphertext rest : List Nat)
deriving DecidableEq, Repr

/-- One iteration of `Server::StartReceiveLoop` (Server.cpp lines
97–124) / `Client::StartReceiveLoop` (Client.cpp lines 144–172) over
the remaining bytes `s` the peer sends before closing.
`NetworkHelper::ReceiveDataBinary` (backed by `ReceiveExact`) returns
the empty vector whenever the connection closes before the requested
count arrives; a requested count of 0 also yields the empty vector,
which the `cipher.empty()` check cannot tell apart from a failed
read.  The decoded `uint32_t` length is narrowed by
`static_cast<int>(clen)` (Server.cpp line 114, Client.cpp line 161):
for `clen ≥ 2^31` the resulting `int` is negative, so the
`std::vector<unsigned char> buf(size)` constructor inside
`ReceiveDataBinary` (NetworkHelper.cpp line 164) receives a huge
`size_t`, throws `std::length_error`, and — with no try/catch
anywhere on the path — the process aborts (`crash`). -/
def recvFrameStep (s : List Nat) : RecvStep :=
  if s.length < 16 then .closed
  else
    let iv := s.take 16
    let s1 := s.drop 16
    if s1.length < 4 then .lenError
    else
      let clen := be32dec (s1.take 4)
      let s2 := s1.drop 4
      if 2 ^ 31 ≤ clen then .crash
      else if clen = 0 ∨ s2.length < clen then .dataError
      else .frame iv (s2.take clen) (s2.drop clen)

/-- Operator-visible events of the receive loop: the terminating
console reports, the process abort, and, per successfully framed
message, the plaintext the loop prints (`AESDecrypt`'s return value,
which is empty when decryption failed). -/
inductive RecvEvent where
  | closed
  | lenError
  | dataError
  | crash
  | msg (plain : List Nat)
deriving DecidableEq, Repr

/-- Fuel-driven worker for `recvLoop`; fuel is always supplied ample
(each loop iteration consumes at least 21 bytes of the stream). -/
def recvLoopF (decB : List Nat → List Nat → List Nat) (key : List Nat) :
    Nat → List Nat → List RecvEvent
  | 0, _ => []
  | fuel + 1, s =>
    match recvFrameStep s with
    | .closed => [.closed]
    | .lenError => [.lenError]
    | .dataError => [.dataError]
    | .crash => [.crash]
    | .frame iv c rest => .msg (AESDecrypt decB key c iv) :: recvLoopF decB key fuel rest

/-- `Server::StartReceiveLoop` / `Client::StartReceiveLoop` as the
event trace they emit while consuming the stream `s`: frames are
decrypted and printed until the first `closed` / `lenError` /
`dataError` break, or until the process aborts (`crash`). -/
def recvLoop (decB : List Nat → List Nat → List Nat) (key : List Nat) (s : List Nat) :
    List RecvEvent :=
  recvLoopF decB key (s.length + 1) s

/-- The mutable state of one `CryptoHelper` instance
(CryptoHelper.h lines 126–128): the own RSA key pair (private and
public halves, modelled as opaque handles), the optional peer public
key, and the 32-byte AES session key buffer `aesKey`. -/
structure CryptoState where
  rsaPriv : Nat
  rsaPub : Nat
  peerPublicKey : Option Nat
  aesKey : List Nat
deriving DecidableEq, Repr

/-- `CryptoHelper::CryptoHelper` plus `GenerateRSAKeys`
(CryptoHelper.cpp lines 217–219 and 238–244): key handles set, no peer
key, `aesKey` zeroed by `memset`. -/
def initCrypto (priv pub : Nat) : CryptoState :=
  ⟨priv, pub, none, List.replicate 32 0⟩

/-- `CryptoHelper::GenerateAESKey` (CryptoHelper.cpp lines 280–282):
fills `aesKey` with 32 random bytes (`RAND_bytes`, modelled by the
`rand32` entropy parameter). -/
def GenerateAESKey (st : CryptoState) (rand32 : List Nat) : CryptoState :=
  { st with aesKey := rand32 }

/-- `CryptoHelper::LoadPeerPublicKey` (CryptoHelper.cpp lines
267–275): parses the received PEM text (parser modelled by the
external `pemImport` parameter) and stores the peer key, or throws
`std::runtime_error` on parse failure. -/
def LoadPeerPublicKey (pemImport : List Nat → Option Nat) (st : CryptoState)
    (pem : List Nat) : Except String CryptoState :=
  match pemImport pem with
  | none => .error "Failed to load peer public key"
  | some pk => .ok { st with peerPublicKey := some pk }

/-- `CryptoHelper::EncryptAESKeyWithPeer` (CryptoHelper.cpp lines
290–302): throws `std::runtime_error` when no peer public key is
loaded, otherwise returns `RSA_public_encrypt` of the 32-byte
`aesKey` under the peer key with `RSA_PKCS1_OAEP_PADDING` (the OAEP
primitive is the external `oaepEnc` parameter). -/
def EncryptAESKeyWithPeer (oaepEnc : Nat → List Nat → List Nat)
    (st : CryptoState) : Except String (List Nat) :=
  match st.peerPublicKey with
  | none => .error "Peer public key is not loaded."
  | some pk => .ok (oaepEnc pk st.aesKey)

/-- `CryptoHelper::DecryptAESKey` (CryptoHelper.cpp lines 310–316):
calls `RSA_private_decrypt` with `RSA_PKCS1_OAEP_PADDING` into the
`aesKey` buffer and IGNORES the return value; the function returns
`void`.  On OAEP failure `RSA_private_decrypt` returns -1 without
producing output, so `aesKey` keeps its previous contents and the
caller observes no error (modelled by `Option.getD`). -/
def DecryptAESKey (oaepDec : Nat → List Nat → Option (List Nat))
    (st : CryptoState) (encryptedKey : List Nat) : CryptoState :=
  { st with aesKey := (oaepDec st.rsaPriv encryptedKey).getD st.aesKey }

/-- `Server::Server` (Server.cpp lines 24–26): generates the RSA pair
only; the server never calls `GenerateAESKey`. -/
def serverInit (priv pub : Nat) : CryptoState :=
  initCrypto priv pub

/-- `Client::Client` (Client.cpp lines 27–31): generates the RSA pair
and the 32-byte AES session key. -/
def clientInit (priv pub : Nat) (rand32 : List Nat) : CryptoState :=
  GenerateAESKey (initCrypto priv pub) rand32

/-- The ordered actions of the Responder handshake, for stating the
order in which `Server::WaitForClient` performs them. -/
inductive HsEvent where
  | sentOwnPub (pem : List Nat)
  | recvdPeerPub
  | importedPeerPub
  | recvdWrappedKey (requested : Nat)
  | unwrappedKey
deriving DecidableEq, Repr

/-- `Server::WaitForClient` (Server.cpp lines 56–76), after the accept
succeeded: sends the own exported public key, receives the peer's PEM
chunk (one `recv`, `NetworkHelper::ReceiveData`), imports it (throwing
on failure), then reads exactly 256 bytes for the wrapped session key
(`ReceiveDataBinary(sock, 256)` yields the empty vector when fewer than
256 bytes arrive before close) and unwraps them with `DecryptAESKey`.
Returns the list of messages sent, and on success the final state with
the ordered action trace. -/
def serverWaitForClient (pemExport : Nat → List Nat) (pemImport : List Nat → Option Nat)
    (oaepDec : Nat → List Nat → Option (List Nat)) (st : CryptoState)
    (peerChunk wireRest : List Nat) :
    List (List Nat) × Except String (CryptoState × List HsEvent) :=
  let sent := [pemExport st.rsaPub]
  match pemImport peerChunk with
  | none => (sent, .error "Failed to load peer public key")
  | some pk =>
    let st1 := { st with peerPublicKey := some pk }
    let wrapped := if wireRest.length < 256 then [] else wireRest.take 256
    let st2 := DecryptAESKey oaepDec st1 wrapped
    (sent, .ok (st2, [.sentOwnPub (pemExport st.rsaPub), .recvdPeerPub, .importedPeerPub,
      .recvdWrappedKey 256, .unwrappedKey]))

/-- Toy OAEP scheme satisfying the OpenSSL contract (decryption under
the matching key handle inverts encryption of a 32-byte secret and
yields 256-byte wrapped keys), used to evaluate the embedding on
concrete inputs. -/
def toyOaepEnc : Nat → List Nat → List Nat :=
  fun pk m => m ++ List.replicate 224 pk

/-- Toy OAEP unwrap matching `toyOaepEnc`: checks shape and padding,
returning `none` on any mismatch (the OAEP validation failure). -/
def toyOaepDec : Nat → List Nat → Option (List Nat) :=
  fun sk c =>
    if c.length = 256 ∧ c.drop 32 = List.replicate 224 sk then some (c.take 32) else none

/-- Toy PEM codec for concrete handshake runs. -/
def toyPemExport : Nat → List Nat :=
  fun pk => [112, 101, 109, pk]

/-- Toy PEM import matching `toyPemExport`; any other shape fails. -/
def toyPemImport : List Nat → Option Nat :=
  fun l =>
    match l with
    | [112, 101, 109, pk] => some pk
    | _ => none

theorem toBlocksF_nil (fuel : Nat) : toBlocksF fuel [] = [] := by
  cases fuel <;> simp [toBlocksF]

theorem toBlocksF_congr : ∀ (fuel fuel' : Nat) (l : List Nat),
    l.length ≤ fuel → l.length ≤ fuel' → toBlocksF fuel l = toBlocksF fuel' l := by
  intro fuel
  induction fuel using Nat.strong_induction_on with
  | _ fuel ih =>
    intro fuel' l hf hf'
    cases l with
    | nil => rw [toBlocksF_nil, toBlocksF_nil]
    | cons x xs =>
      cases fuel with
      | zero => simp at hf
      | succ fuel =>
        cases fuel' with
        | zero => simp at hf'
        | succ fuel' =>
          simp only [toBlocksF, if_neg (List.cons_ne_nil x xs)]
          have hlen : ((x :: xs).drop 16).length ≤ fuel := by
            simp only [List.length_drop, List.length_cons] at *
            omega
          have hlen' : ((x :: xs).drop 16).length ≤ fuel' := by
            simp only [List.length_drop, List.length_cons] at *
            omega
          rw [ih fuel (Nat.lt_succ_self fuel) fuel' _ hlen hlen']

theorem toBlocks_eq (l : List Nat) :
    toBlocks l = if l = [] then [] else l.take 16 :: toBlocks (l.drop 16) := by
  cases l with
  | nil => simp [toBlocks, toBlocksF]
  | cons x xs =>
    simp only [toBlocks, List.length_cons, toBlocksF, if_neg (List.cons_ne_nil x xs),
      List.cons.injEq, true_and]
    exact toBlocksF_congr _ _ _ (by simp only [List.length_drop, List.length_cons]; omega)
      (le_refl _)

theorem length_xorB (a b : List Nat) : (xorB a b).length = min a.length b.length := by
  simp [xorB, List.length_zipWith]

theorem xorB_xorB : ∀ (a b : List Nat), a.length = b.length → xorB a (xorB a b) = b := by
  intro a
  induction a with
  | nil =>
    intro b h
    have : b = [] := List.length_eq_zero.mp h.symm
    simp [this, xorB]
  | cons x xs ih =>
    intro b h
    cases b with
    | nil => simp at h
    | cons y ys =>
      simp only [List.length_cons, Nat.add_right_cancel_iff] at h
      simp only [xorB, List.zipWith_cons_cons, Nat.xor_cancel_left, List.cons.injEq, true_and]
      exact ih ys h

theorem pkcs7pad_length (p : List Nat) :
    (pkcs7pad p).length = 16 * (p.length / 16 + 1) := by
  simp only [pkcs7pad, List.length_append, List.length_replicate]
  omega

theorem pkcs7pad_mod (p : List Nat) : (pkcs7pad p).length % 16 = 0 := by
  rw [pkcs7pad_length]
  omega

theorem pkcs7unpad_pad (p : List Nat) : pkcs7unpad (pkcs7pad p) = some p := by
  have hmod : p.length % 16 < 16 := Nat.mod_lt _ (by norm_num)
  set n := 16 - p.length % 16 with hn
  have hq : (pkcs7pad p).length = p.length + n := by
    simp [pkcs7pad]
  have hpad : pkcs7pad p = p ++ List.replicate n n := by
    rw [pkcs7pad]
  have hlast : (pkcs7pad p).getLast? = some n := by
    rw [hpad, List.getLast?_append, List.getLast?_replicate, if_neg (by omega : ¬ n = 0)]
    rfl
  have hsub : (pkcs7pad p).length - n = p.length := by omega
  have hall : (((pkcs7pad p).drop ((pkcs7pad p).length - n)).all (fun b => b == n)) = true := by
    rw [hsub, hpad, List.drop_left]
    simp [List.all_eq_true, List.mem_replicate]
  rw [pkcs7unpad, hlast, Option.some_bind,
    if_pos ⟨by omega, by omega, by omega, hall⟩, hsub, hpad, List.take_left]

theorem toBlocks_flatten_aux :
    ∀ (k : Nat) (l : List Nat), l.length ≤ k → (toBlocks l).flatten = l := by
  intro k
  induction k with
  | zero =>
    intro l hl
    have : l = [] := List.length_eq_zero.mp (Nat.le_zero.mp hl)
    simp [this, toBlocks_eq]
  | succ k ih =>
    intro l hl
    rw [toBlocks_eq]
    by_cases h : l = []
    · simp [h]
    · rw [if_neg h]
      have hpos : 0 < l.length := List.length_pos.mpr h
      rw [List.flatten_cons, ih (l.drop 16) (by simp [List.length_drop]; omega)]
      exact List.take_append_drop 16 l

theorem toBlocks_flatten (l : List Nat) : (toBlocks l).flatten = l :=
  toBlocks_flatten_aux l.length l (le_refl _)

theorem toBlocks_blockLen_aux :
    ∀ (k : Nat) (l : List Nat), l.length ≤ k → l.length % 16 = 0 →
      ∀ b ∈ toBlocks l, b.length = 16 := by
  intro k
  induction k with
  | zero =>
    intro l hl _
    have : l = [] := List.length_eq_zero.mp (Nat.le_zero.mp hl)
    simp [this, toBlocks_eq]
  | succ k ih =>
    intro l hl hm b hb
    rw [toBlocks_eq] at hb
    by_cases h : l = []
    · simp [h] at hb
    · rw [if_neg h] at hb
      have hpos : 0 < l.length := List.length_pos.mpr h
      have h16 : 16 ≤ l.length := by omega
      rcases List.mem_cons.mp hb with hhead | htail
      · rw [hhead, List.length_take]
        omega
      · exact ih (l.drop 16) (by simp [List.length_drop]; omega)
          (by simp [List.length_drop]; omega) b htail

theorem toBlocks_blockLen (l : List Nat) (hm : l.length % 16 = 0) :
    ∀ b ∈ toBlocks l, b.length = 16 :=
  toBlocks_blockLen_aux l.length l (le_refl _) hm

theorem toBlocks_length_aux :
    ∀ (k : Nat) (l : List Nat), l.length ≤ k → l.length % 16 = 0 →
      (toBlocks l).length = l.length / 16 := by
  intro k
  induction k with
  | zero =>
    intro l hl _
    have : l = [] := List.length_eq_zero.mp (Nat.le_zero.mp hl)
    simp [this, toBlocks_eq]
  | succ k ih =>
    intro l hl hm
    rw [toBlocks_eq]
    by_cases h : l = []
    · simp [h]
    · rw [if_neg h]
      have hpos : 0 < l.length := List.length_pos.mpr h
      have h16 : 16 ≤ l.length := by omega
      rw [List.length_cons, ih (l.drop 16) (by simp [List.length_drop]; omega)
        (by simp [List.length_drop]; omega)]
      simp only [List.length_drop]
      omega

theorem toBlocks_length (l : List Nat) (hm : l.length % 16 = 0) :
    (toBlocks l).length = l.length / 16 :=
  toBlocks_length_aux l.length l (le_refl _) hm

theorem toBlocks_of_flatten :
    ∀ (bl : List (List Nat)), (∀ b ∈ bl, b.length = 16) → toBlocks bl.flatten = bl := by
  intro bl
  induction bl with
  | nil => intro _; simp [toBlocks_eq]
  | cons b bl ih =>
    intro hlen
    have hb : b.length = 16 := hlen b (List.mem_cons_self b bl)
    have hbne : b ++ bl.flatten ≠ [] := by
      intro h
      have := congrArg List.length h
      simp [hb] at this
    rw [List.flatten_cons, toBlocks_eq, if_neg hbne, List.take_left' hb,
      List.drop_left' hb, ih (fun c hc => hlen c (List.mem_cons_of_mem b hc))]

theorem cbcEnc_length (encB : List Nat → List Nat) :
    ∀ (bs : List (List Nat)) (iv : List Nat), (cbcEnc encB iv bs).length = bs.length := by
  intro bs
  induction bs with
  | nil => intro iv; simp [cbcEnc]
  | cons b bs ih => intro iv; simp [cbcEnc, ih]

theorem cbcEnc_blockLen (encB : List Nat → List Nat)
    (hlen : ∀ b, b.length = 16 → (encB b).length = 16) :
    ∀ (bs : List (List Nat)) (iv : List Nat), iv.length = 16 →
      (∀ b ∈ bs, b.length = 16) → ∀ c ∈ cbcEnc encB iv bs, c.length = 16 := by
  intro bs
  induction bs with
  | nil => intro iv _ _ c hc; simp [cbcEnc] at hc
  | cons b bs ih =>
    intro iv hiv hbs c hc
    have hb : b.length = 16 := hbs b (List.mem_cons_self b bs)
    have hxb : (xorB iv b).length = 16 := by
      rw [length_xorB, hiv, hb]; rfl
    have hc16 : (encB (xorB iv b)).length = 16 := hlen _ hxb
    simp only [cbcEnc, List.mem_cons] at hc
    rcases hc with hc | hc
    · rw [hc]; exact hc16
    · exact ih (encB (xorB iv b)) hc16 (fun d hd => hbs d (List.mem_cons_of_mem b hd)) c hc

theorem cbcDec_cbcEnc (encB decB : List Nat → List Nat)
    (hlen : ∀ b, b.length = 16 → (encB b).length = 16)
    (hinv : ∀ b, b.length = 16 → decB (encB b) = b) :
    ∀ (bs : List (List Nat)) (iv : List Nat), iv.length = 16 →
      (∀ b ∈ bs, b.length = 16) → cbcDec decB iv (cbcEnc encB iv bs) = bs := by
  intro bs
  induction bs with
  | nil => intro iv _ _; simp [cbcEnc, cbcDec]
  | cons b bs ih =>
    intro iv hiv hbs
    have hb : b.length = 16 := hbs b (List.mem_cons_self b bs)
    have hxb : (xorB iv b).length = 16 := by
      rw [length_xorB, hiv, hb]; rfl
    simp only [cbcEnc, cbcDec, hinv _ hxb, List.cons.injEq]
    constructor
    · exact xorB_xorB iv b (hiv.trans hb.symm)
    · exact ih (encB (xorB iv b)) (hlen _ hxb) (fun d hd => hbs d (List.mem_cons_of_mem b hd))

theorem flatten_length_of_blocks :
    ∀ (bl : List (List Nat)), (∀ b ∈ bl, b.length = 16) →
      bl.flatten.length = 16 * bl.length := by
  intro bl
  induction bl with
  | nil => intro _; simp
  | cons b bl ih =>
    intro h
    simp only [List.flatten_cons, List.length_append, List.length_cons,
      h b (List.mem_cons_self b bl), ih (fun c hc => h c (List.mem_cons_of_mem b hc))]
    ring

theorem AESEncrypt_iv_length (encB : List Nat → List Nat → List Nat) (key ivRand p : List Nat)
    (hiv : 16 ≤ ivRand.length) : (AESEncrypt encB key ivRand p).1.length = 16 := by
  simp [AESEncrypt, List.length_take]
  omega

theorem AESEncrypt_cipher_length (encB : List Nat → List Nat → List Nat) (key ivRand p : List Nat)
    (hlen : ∀ b, b.length = 16 → (encB key b).length = 16) (hiv : 16 ≤ ivRand.length) :
    (AESEncrypt encB key ivRand p).2.length = 16 * (p.length / 16 + 1) := by
  have hivt : (ivRand.take 16).length = 16 := by
    simp [List.length_take]; omega
  have hpadblocks := toBlocks_blockLen (pkcs7pad p) (pkcs7pad_mod p)
  have hcblocks := cbcEnc_blockLen (encB key) hlen (toBlocks (pkcs7pad p)) (ivRand.take 16)
    hivt hpadblocks
  simp only [AESEncrypt]
  rw [flatten_length_of_blocks _ hcblocks, cbcEnc_length,
    toBlocks_length _ (pkcs7pad_mod p), pkcs7pad_length]
  omega

theorem AESDecryptE_AESEncrypt (encB decB : List Nat → List Nat → List Nat)
    (key ivRand p : List Nat)
    (hlen : ∀ b, b.length = 16 → (encB key b).length = 16)
    (hinv : ∀ b, b.length = 16 → decB key (encB key b) = b)
    (hiv : 16 ≤ ivRand.length) :
    AESDecryptE decB key (AESEncrypt encB key ivRand p).2 (AESEncrypt encB key ivRand p).1
      = some p := by
  have hivt : (ivRand.take 16).length = 16 := by
    simp [List.length_take]; omega
  have hpadblocks := toBlocks_blockLen (pkcs7pad p) (pkcs7pad_mod p)
  have hcblocks := cbcEnc_blockLen (encB key) hlen (toBlocks (pkcs7pad p)) (ivRand.take 16)
    hivt hpadblocks
  have hclen := AESEncrypt_cipher_length encB key ivRand p hlen hiv
  simp only [AESEncrypt] at hclen ⊢
  rw [AESDecryptE, if_pos (by omega : ((cbcEnc (encB key) (ivRand.take 16)
      (toBlocks (pkcs7pad p))).flatten.length) % 16 = 0),
    toBlocks_of_flatten _ hcblocks,
    cbcDec_cbcEnc (encB key) (decB key) hlen hinv _ _ hivt hpadblocks,
    toBlocks_flatten, pkcs7unpad_pad]

theorem be32dec_be32enc (n : Nat) (h : n < 2 ^ 32) : be32dec (be32enc n) = n := by
  simp only [be32enc, be32dec, List.getD_cons_zero, List.getD_cons_succ]
  omega

theorem recvFrameStep_rest_length {s iv c rest : List Nat}
    (h : recvFrameStep s = .frame iv c rest) : rest.length < s.length := by
  unfold recvFrameStep at h
  dsimp only at h
  split at h
  · exact absurd h (by simp)
  · split at h
    · exact absurd h (by simp)
    · split at h
      · exact absurd h (by simp)
      · split at h
        · exact absurd h (by simp)
        · rename_i h16 h4 h31 h0
          rw [RecvStep.frame.injEq] at h
          obtain ⟨hiv, hc, hrest⟩ := h
          push_neg at h0
          simp only [List.length_drop] at h4 h0
          rw [← hrest]
          simp only [List.length_drop]
          omega

theorem recvLoopF_congr (decB : List Nat → List Nat → List Nat) (key : List Nat) :
    ∀ (fuel fuel' : Nat) (s : List Nat), s.length < fuel → s.length < fuel' →
      recvLoopF decB key fuel s = recvLoopF decB key fuel' s := by
  intro fuel
  induction fuel using Nat.strong_induction_on with
  | _ fuel ih =>
    intro fuel' s hf hf'
    cases fuel with
    | zero => omega
    | succ fuel =>
      cases fuel' with
      | zero => omega
      | succ fuel' =>
        simp only [recvLoopF]
        cases hstep : recvFrameStep s with
        | closed => rfl
        | lenError => rfl
        | dataError => rfl
        | crash => rfl
        | frame iv c rest =>
          have hrest := recvFrameStep_rest_length hstep
          dsimp only
          rw [ih fuel (Nat.lt_succ_self fuel) fuel' rest (by omega) (by omega)]

theorem recvLoop_frame {decB : List Nat → List Nat → List Nat} {key s iv c rest : List Nat}
    (h : recvFrameStep s = .frame iv c rest) :
    recvLoop decB key s = .msg (AESDecrypt decB key c iv) :: recvLoop decB key rest := by
  have hrest := recvFrameStep_rest_length h
  have step1 : recvLoop decB key s
      = .msg (AESDecrypt decB key c iv) :: recvLoopF decB key s.length rest := by
    simp only [recvLoop, recvLoopF, h]
  rw [step1, recvLoopF_congr decB key s.length (rest.length + 1) rest (by omega) (by omega)]
  rfl

theorem recvLoop_closed {decB : List Nat → List Nat → List Nat} {key s : List Nat}
    (h : recvFrameStep s = .closed) : recvLoop decB key s = [.closed] := by
  simp only [recvLoop, recvLoopF, h]

theorem recvLoop_lenError {decB : List Nat → List Nat → List Nat} {key s : List Nat}
    (h : recvFrameStep s = .lenError) : recvLoop decB key s = [.lenError] := by
  simp only [recvLoop, recvLoopF, h]

theorem recvLoop_dataError {decB : List Nat → List Nat → List Nat} {key s : List Nat}
    (h : recvFrameStep s = .dataError) : recvLoop decB key s = [.dataError] := by
  simp only [recvLoop, recvLoopF, h]

theorem be32enc_length (n : Nat) : (be32enc n).length = 4 := rfl

theorem recvFrameStep_writeFrame (iv c rest : List Nat) (hiv : iv.length = 16)
    (hc0 : 0 < c.length) (hc31 : c.length < 2 ^ 31) :
    recvFrameStep (writeFrame iv c ++ rest) = .frame iv c rest := by
  have hassoc : writeFrame iv c ++ rest = iv ++ (be32enc c.length ++ (c ++ rest)) := by
    simp [writeFrame, List.append_assoc]
  rw [hassoc]
  have hL : (iv ++ (be32enc c.length ++ (c ++ rest))).length
      = 16 + (4 + (c.length + rest.length)) := by
    simp [hiv, be32enc_length]
  unfold recvFrameStep
  dsimp only
  rw [if_neg (by omega : ¬ (iv ++ (be32enc c.length ++ (c ++ rest))).length < 16)]
  rw [List.take_left' hiv, List.drop_left' hiv]
  have hL2 : (be32enc c.length ++ (c ++ rest)).length = 4 + (c.length + rest.length) := by
    simp [be32enc_length]
  rw [if_neg (by omega : ¬ (be32enc c.length ++ (c ++ rest)).length < 4)]
  rw [List.take_left' (be32enc_length c.length), List.drop_left' (be32enc_length c.length),
    be32dec_be32enc _ (by omega)]
  rw [if_neg (by omega : ¬ 2 ^ 31 ≤ c.length)]
  have hL3 : (c ++ rest).length = c.length + rest.length := by simp
  rw [if_neg (by omega : ¬ (c.length = 0 ∨ (c ++ rest).length < c.length))]
  rw [List.take_left, List.drop_left]

theorem toy_oaep_matching (k : Nat) :
    ∀ m : List Nat, m.length = 32 → toyOaepDec k (toyOaepEnc k m) = some m := by
  intro m hm
  have hlen : (m ++ List.replicate 224 k).length = 256 := by
    rw [List.length_append, List.length_replicate, hm]
  rw [toyOaepDec, toyOaepEnc,
    if_pos ⟨hlen, List.drop_left' hm⟩, List.take_left' hm]

/-- Claim C1: session-cipher round-trip.  For every 32-byte session
key (abstracted into the AES-256 block-cipher parameters `encB`/`decB`
satisfying OpenSSL's block-cipher contract), every plaintext `P` and
every IV drawn by `AESEncrypt`, decrypting the produced ciphertext
with `AESDecrypt` under the same key and the returned IV yields
exactly `P`. -/
theorem aes_session_roundtrip
    (encB decB : List Nat → List Nat → List Nat) (key ivRand p : List Nat)
    (hkey : key.length = 32) (hiv : 16 ≤ ivRand.length)
    (hlen : ∀ b : List Nat, b.length = 16 → (encB key b).length = 16)
    (hinv : ∀ b : List Nat, b.length = 16 → decB key (encB key b) = b) :
    AESDecrypt decB key (AESEncrypt encB key ivRand p).2 (AESEncrypt encB key ivRand p).1
      = p := by
  rw [AESDecrypt, AESDecryptE_AESEncrypt encB decB key ivRand p hlen hinv hiv]
  rfl

theorem aes_session_roundtrip_witness :
    AESDecrypt idBlock (List.replicate 32 0)
      (AESEncrypt idBlock (List.replicate 32 0) (List.replicate 16 7) [104, 105]).2
      (AESEncrypt idBlock (List.replicate 32 0) (List.replicate 16 7) [104, 105]).1
      = [104, 105] :=
  aes_session_roundtrip idBlock idBlock (List.replicate 32 0) (List.replicate 16 7) [104, 105]
    (by decide) (by decide) (fun _ h => h) (fun _ _ => rfl)

/-- Claim C9: implicit ciphertext-shape postcondition.  `AESEncrypt`
returns a 16-byte IV, and a ciphertext whose length is the smallest
multiple of 16 strictly greater than the plaintext length (PKCS
padding always adds a full block); in particular the ciphertext is
never empty, even for the empty plaintext. -/
theorem aes_ciphertext_shape
    (encB : List Nat → List Nat → List Nat) (key ivRand p : List Nat)
    (hiv : 16 ≤ ivRand.length)
    (hlen : ∀ b : List Nat, b.length = 16 → (encB key b).length = 16) :
    (AESEncrypt encB key ivRand p).1.length = 16 ∧
    (AESEncrypt encB key ivRand p).2.length = 16 * (p.length / 16 + 1) ∧
    p.length < (AESEncrypt encB key ivRand p).2.length ∧
    16 ∣ (AESEncrypt encB key ivRand p).2.length ∧
    (∀ m : Nat, 16 ∣ m → p.length < m → (AESEncrypt encB key ivRand p).2.length ≤ m) ∧
    (AESEncrypt encB key ivRand p).2 ≠ [] := by
  have hclen := AESEncrypt_cipher_length encB key ivRand p hlen hiv
  refine ⟨AESEncrypt_iv_length encB key ivRand p hiv, hclen, ?_, ?_, ?_, ?_⟩
  · rw [hclen]
    omega
  · rw [hclen]
    exact ⟨_, rfl⟩
  · intro m hm hpm
    rw [hclen]
    obtain ⟨k, rfl⟩ := hm
    omega
  · intro hnil
    have := congrArg List.length hnil
    rw [hclen] at this
    simp at this

theorem aes_ciphertext_shape_witness :
    (AESEncrypt idBlock (List.replicate 32 0) (List.replicate 16 7) [1, 2, 3]).1.length = 16 ∧
    (AESEncrypt idBlock (List.replicate 32 0) (List.replicate 16 7) [1, 2, 3]).2.length
      = 16 * (([1, 2, 3] : List Nat).length / 16 + 1) ∧
    ([1, 2, 3] : List Nat).length < (AESEncrypt idBlock (List.replicate 32 0)
      (List.replicate 16 7) [1, 2, 3]).2.length ∧
    16 ∣ (AESEncrypt idBlock (List.replicate 32 0) (List.replicate 16 7) [1, 2, 3]).2.length ∧
    (∀ m : Nat, 16 ∣ m → ([1, 2, 3] : List Nat).length < m →
      (AESEncrypt idBlock (List.replicate 32 0) (List.replicate 16 7) [1, 2, 3]).2.length ≤ m) ∧
    (AESEncrypt idBlock (List.replicate 32 0) (List.replicate 16 7) [1, 2, 3]).2 ≠ [] :=
  aes_ciphertext_shape idBlock (List.replicate 32 0) (List.replicate 16 7) [1, 2, 3]
    (by decide) (fun _ h => h)

/-- Claim C10: implicit decrypt ambiguity at the public interface.
`AESDecrypt` returns the empty string both when decryption fails
(`AESDecryptE` is `none`) and when it succeeds on a ciphertext whose
plaintext is genuinely empty (`AESDecryptE` is `some []`); both cases
occur on concrete inputs with the same key and IV, so the caller
cannot distinguish them from the return value alone. -/
theorem aesdecrypt_empty_ambiguity :
    (∀ (decB : List Nat → List Nat → List Nat) (key c iv : List Nat),
       AESDecryptE decB key c iv = none → AESDecrypt decB key c iv = []) ∧
    (∀ (decB : List Nat → List Nat → List Nat) (key c iv : List Nat),
       AESDecryptE decB key c iv = some [] → AESDecrypt decB key c iv = []) ∧
    AESDecryptE idBlock (List.replicate 32 0) (List.replicate 16 0)
      (List.replicate 16 0) = none ∧
    AESDecrypt idBlock (List.replicate 32 0) (List.replicate 16 0)
      (List.replicate 16 0) = [] ∧
    AESDecryptE idBlock (List.replicate 32 0) (List.replicate 16 16)
      (List.replicate 16 0) = some [] ∧
    AESDecrypt idBlock (List.replicate 32 0) (List.replicate 16 16)
      (List.replicate 16 0) = [] := by
  refine ⟨?_, ?_, by decide, by decide, by decide, by decide⟩
  · intro decB key c iv h
    rw [AESDecrypt, h]
    rfl
  · intro decB key c iv h
    rw [AESDecrypt, h]
    rfl

theorem aesdecrypt_empty_ambiguity_witness :
    AESDecrypt idBlock (List.replicate 32 0) (List.replicate 16 0)
      (List.replicate 16 0) = [] :=
  aesdecrypt_empty_ambiguity.1 idBlock (List.replicate 32 0) (List.replicate 16 0)
    (List.replicate 16 0) (by decide)

/-- Claim C4, counterexample at ciphertext length 0: the frame written
for the empty ciphertext reads back as the `cipher.empty()` error
branch (`dataError`), not as the frame `(iv, [])` — the receive path
cannot represent an empty ciphertext because `ReceiveDataBinary`
returns the empty vector both for a zero-byte read and for a failed
read. -/
theorem frame_roundtrip_zero_fails :
    recvFrameStep (writeFrame (List.replicate 16 3) [] ++ []) = .dataError ∧
    RecvStep.dataError ≠ RecvStep.frame (List.replicate 16 3) [] [] := by
  constructor
  · decide
  · decide

/-- Claim C4 as amended: for every 16-byte IV and every ciphertext of
length 1 or 10,000, writing the frame with the send path and reading
it back with the receive path yields exactly `(iv, c)` and consumes
exactly the frame; for the claim's remaining length, 0, the round-trip
fails — the receive path reports a data error instead (see
`frame_roundtrip_zero_fails`). -/
theorem frame_codec_roundtrip (iv c rest : List Nat) (hiv : iv.length = 16)
    (hc : c.length = 1 ∨ c.length = 10000) :
    recvFrameStep (writeFrame iv c ++ rest) = .frame iv c rest := by
  rcases hc with h | h <;>
    exact recvFrameStep_writeFrame iv c rest hiv (by omega) (by omega)

theorem frame_codec_roundtrip_witness :
    recvFrameStep (writeFrame (List.replicate 16 1) [9] ++ [])
      = .frame (List.replicate 16 1) [9] [] ∧
    recvFrameStep (writeFrame (List.replicate 16 1) (List.replicate 10000 7) ++ [5])
      = .frame (List.replicate 16 1) (List.replicate 10000 7) [5] :=
  ⟨frame_codec_roundtrip (List.replicate 16 1) [9] [] (by decide) (by decide),
   frame_codec_roundtrip (List.replicate 16 1) (List.replicate 10000 7) [5]
     (by decide) (Or.inr (by rw [List.length_replicate]))⟩

/-- Claim C5, counterexample at announced length 2^31: after a valid
16-byte IV the peer sends the 4-byte big-endian length field with the
high bit set ([128, 0, 0, 0]) and closes.  The ciphertext is cut off
(0 of the announced 2^31 bytes arrived), yet no truncation report
distinct from EndOfStream is produced: `static_cast<int>(clen)` is
negative, `std::vector buf(size)` in `ReceiveDataBinary` throws
`std::length_error` and the process aborts (`crash`), which is none of
the two error reports and not the close report either. -/
theorem read_frame_truncation_crashes :
    recvFrameStep (List.replicate 16 0 ++ [128, 0, 0, 0]) = .crash ∧
    RecvStep.crash ≠ RecvStep.dataError ∧ RecvStep.crash ≠ RecvStep.lenError ∧
    RecvStep.crash ≠ RecvStep.closed :=
  ⟨by decide, by decide, by decide, by decide⟩

/-- Claim C5 as amended: if the peer closes before 16 IV bytes
arrive, the reader reports the connection-closed branch (`closed`,
the "Conexión cerrada" message); any short read after a complete IV
whose announced ciphertext length fits in a non-negative `int`
(below 2^31) — the length field cut off, or the ciphertext cut off
(e.g. only 10 bytes following a valid IV when more were announced) —
is reported through a branch distinct from `closed` (`lenError` /
`dataError`, the "Error al recibir" messages).  For announced lengths
of 2^31 and above the process instead aborts in `ReceiveDataBinary`'s
buffer construction before any read (`crash`, see
`read_frame_truncation_crashes`). -/
theorem read_frame_close_vs_truncation (s : List Nat) :
    (s.length < 16 → recvFrameStep s = .closed) ∧
    (16 ≤ s.length → s.length < 20 → recvFrameStep s = .lenError) ∧
    (20 ≤ s.length → 0 < be32dec ((s.drop 16).take 4) →
      be32dec ((s.drop 16).take 4) < 2 ^ 31 →
      s.length < 20 + be32dec ((s.drop 16).take 4) → recvFrameStep s = .dataError) ∧
    (20 ≤ s.length → 2 ^ 31 ≤ be32dec ((s.drop 16).take 4) →
      recvFrameStep s = .crash) ∧
    RecvStep.lenError ≠ RecvStep.closed ∧ RecvStep.dataError ≠ RecvStep.closed := by
  refine ⟨?_, ?_, ?_, ?_, by decide, by decide⟩
  · intro h
    unfold recvFrameStep
    rw [if_pos h]
  · intro h16 h20
    unfold recvFrameStep
    dsimp only
    rw [if_neg (by omega), if_pos (by simp only [List.length_drop]; omega)]
  · intro h20 hpos h31 hlt
    unfold recvFrameStep
    dsimp only
    rw [if_neg (by omega), if_neg (by simp only [List.length_drop]; omega),
      if_neg (by omega : ¬ 2 ^ 31 ≤ be32dec (List.take 4 (List.drop 16 s))),
      if_pos (Or.inr (by simp only [List.length_drop, List.drop_drop]; omega))]
  · intro h20 h31
    unfold recvFrameStep
    dsimp only
    rw [if_neg (by omega), if_neg (by simp only [List.length_drop]; omega), if_pos h31]

theorem read_frame_close_vs_truncation_witness :
    recvFrameStep (List.replicate 10 0) = .closed ∧
    recvFrameStep (List.replicate 18 0) = .lenError ∧
    recvFrameStep (List.replicate 16 0 ++ [0, 0, 0, 5] ++ [1, 2]) = .dataError ∧
    recvFrameStep (List.replicate 16 0 ++ [128, 0, 0, 1]) = .crash :=
  ⟨(read_frame_close_vs_truncation (List.replicate 10 0)).1 (by decide),
   (read_frame_close_vs_truncation (List.replicate 18 0)).2.1 (by decide) (by decide),
   (read_frame_close_vs_truncation (List.replicate 16 0 ++ [0, 0, 0, 5] ++ [1, 2])).2.2.1
     (by decide) (by decide) (by decide) (by decide),
   (read_frame_close_vs_truncation (List.replicate 16 0 ++ [128, 0, 0, 1])).2.2.2.1
     (by decide) (by decide)⟩

/-- Claim C6, counterexample: a structurally complete frame whose
ciphertext fails to decrypt (`AESDecryptE = none`) does NOT terminate
the receive loop and is NOT reported distinctly: the loop prints the
empty plaintext as an ordinary message and keeps processing the
following frame, ending only at connection close. -/
theorem recv_loop_decrypt_failure_not_reported :
    recvLoop idBlock (List.replicate 32 0)
      (writeFrame (List.replicate 16 0) (List.replicate 16 0) ++
        writeFrame (List.replicate 16 0) ([104, 105] ++ List.replicate 14 14))
      = [.msg [], .msg [104, 105], .closed] ∧
    AESDecryptE idBlock (List.replicate 32 0) (List.replicate 16 0)
      (List.replicate 16 0) = none := by
  constructor
  · decide
  · decide

/-- Claim C6 as amended: when a frame whose ciphertext length fits in
a non-negative `int` (below 2^31, as every ciphertext the sender
itself produces does) fails to decrypt, the receive loop does not
crash — `AESDecrypt` returns the empty string, which the loop emits
as an ordinary message before continuing with the rest of the stream;
the loop neither terminates on the failure nor reports it distinctly
from the connection-closed report.  (For announced lengths of 2^31
and above the loop aborts in the read, before decryption is ever
reached: `read_frame_truncation_crashes`.) -/
theorem recv_loop_decrypt_failure_continues
    (decB : List Nat → List Nat → List Nat) (key iv c rest : List Nat)
    (hiv : iv.length = 16) (hc0 : 0 < c.length) (hc31 : c.length < 2 ^ 31)
    (hfail : AESDecryptE decB key c iv = none) :
    recvLoop decB key (writeFrame iv c ++ rest)
      = .msg [] :: recvLoop decB key rest := by
  have hdec : AESDecrypt decB key c iv = [] := by
    rw [AESDecrypt, hfail]
    rfl
  rw [recvLoop_frame (recvFrameStep_writeFrame iv c rest hiv hc0 hc31), hdec]

theorem recv_loop_decrypt_failure_continues_witness :
    recvLoop idBlock (List.replicate 32 0)
      (writeFrame (List.replicate 16 0) (List.replicate 16 0) ++ [])
      = .msg [] :: recvLoop idBlock (List.replicate 32 0) [] :=
  recv_loop_decrypt_failure_continues idBlock (List.replicate 32 0) (List.replicate 16 0)
    (List.replicate 16 0) [] (by decide) (by decide) (by decide) (by decide)

/-- Claim C2: wrap/unwrap round-trip.  For every 32-byte session key
`K` and matching RSA key pair (the OpenSSL OAEP contract `hmatch`),
wrapping with `EncryptAESKeyWithPeer` under the peer public key and
unwrapping with `DecryptAESKey` under the local private key recovers
exactly `K` into the receiver's key store. -/
theorem wrap_unwrap_roundtrip
    (oaepEnc : Nat → List Nat → List Nat) (oaepDec : Nat → List Nat → Option (List Nat))
    (priv pub : Nat) (K : List Nat) (sender receiver : CryptoState)
    (hmatch : ∀ m : List Nat, m.length = 32 → oaepDec priv (oaepEnc pub m) = some m)
    (hK : K.length = 32) (hpeer : sender.peerPublicKey = some pub)
    (hkey : sender.aesKey = K) (hpriv : receiver.rsaPriv = priv) :
    ∃ w : List Nat, EncryptAESKeyWithPeer oaepEnc sender = .ok w ∧
      (DecryptAESKey oaepDec receiver w).aesKey = K := by
  refine ⟨oaepEnc pub K, ?_, ?_⟩
  · simp only [EncryptAESKeyWithPeer, hpeer, hkey]
  · simp only [DecryptAESKey, hpriv, hmatch K hK, Option.getD_some]

theorem wrap_unwrap_roundtrip_witness :
    ∃ w : List Nat,
      EncryptAESKeyWithPeer toyOaepEnc ⟨1, 2, some 5, List.replicate 32 9⟩ = .ok w ∧
      (DecryptAESKey toyOaepDec ⟨5, 5, none, List.replicate 32 0⟩ w).aesKey
        = List.replicate 32 9 :=
  wrap_unwrap_roundtrip toyOaepEnc toyOaepDec 5 5 (List.replicate 32 9)
    ⟨1, 2, some 5, List.replicate 32 9⟩ ⟨5, 5, none, List.replicate 32 0⟩
    (toy_oaep_matching 5) (by decide) rfl rfl rfl

/-- Claim C3 (code bug): `CryptoHelper::DecryptAESKey` ignores the
return value of `RSA_private_decrypt`, so when OAEP
padding/validation fails the call completes silently — the function
returns the unchanged state (stale/garbage `aesKey`) and no
`UnwrapError` is visible to the caller (the return type carries no
error channel at all). -/
theorem unwrap_failure_silent
    (oaepDec : Nat → List Nat → Option (List Nat)) (st : CryptoState) (c : List Nat)
    (hfail : oaepDec st.rsaPriv c = none) :
    DecryptAESKey oaepDec st c = st := by
  simp [DecryptAESKey, hfail]

set_option maxRecDepth 8000 in
theorem unwrap_failure_silent_witness :
    DecryptAESKey toyOaepDec ⟨7, 7, none, List.replicate 32 1⟩ (List.replicate 256 0)
      = ⟨7, 7, none, List.replicate 32 1⟩ :=
  unwrap_failure_silent toyOaepDec ⟨7, 7, none, List.replicate 32 1⟩
    (List.replicate 256 0) (by decide)

/-- Claim C7: handshake order and role asymmetry.  On every accepted
connection, `Server::WaitForClient` first sends exactly its own
exported public key, then receives and imports the peer key, then
reads exactly 256 bytes of wrapped session key and unwraps them with
its private key (in the recorded order); the server constructor never
generates a session key (its `aesKey` stays the zero buffer until the
unwrap) while the client constructor does — only the Initiator
generates, the Responder is always the unwrapper. -/
theorem server_handshake_order
    (pemExport : Nat → List Nat) (pemImport : List Nat → Option Nat)
    (oaepDec : Nat → List Nat → Option (List Nat)) (st : CryptoState)
    (peerChunk wireRest : List Nat) (pk : Nat)
    (himp : pemImport peerChunk = some pk) (hwire : 256 ≤ wireRest.length) :
    serverWaitForClient pemExport pemImport oaepDec st peerChunk wireRest
      = ([pemExport st.rsaPub],
         .ok ({ st with peerPublicKey := some pk,
                        aesKey := (oaepDec st.rsaPriv (wireRest.take 256)).getD st.aesKey },
           [.sentOwnPub (pemExport st.rsaPub), .recvdPeerPub, .importedPeerPub,
             .recvdWrappedKey 256, .unwrappedKey])) ∧
    (wireRest.take 256).length = 256 ∧
    (∀ priv pub : Nat, (serverInit priv pub).aesKey = List.replicate 32 0) ∧
    (∀ (priv pub : Nat) (rand32 : List Nat), (clientInit priv pub rand32).aesKey = rand32) := by
  refine ⟨?_, ?_, fun _ _ => rfl, fun _ _ _ => rfl⟩
  · simp only [serverWaitForClient, himp, if_neg (by omega : ¬ wireRest.length < 256),
      DecryptAESKey]
  · simp only [List.length_take]
    omega

theorem server_handshake_order_witness :
    serverWaitForClient toyPemExport toyPemImport toyOaepDec
        ⟨5, 6, none, List.replicate 32 0⟩ [112, 101, 109, 8]
        (toyOaepEnc 5 (List.replicate 32 9))
      = ([toyPemExport 6],
         .ok (⟨5, 6, some 8,
               (toyOaepDec 5 ((toyOaepEnc 5 (List.replicate 32 9)).take 256)).getD
                 (List.replicate 32 0)⟩,
           [.sentOwnPub (toyPemExport 6), .recvdPeerPub, .importedPeerPub,
             .recvdWrappedKey 256, .unwrappedKey])) :=
  (server_handshake_order toyPemExport toyPemImport toyOaepDec
    ⟨5, 6, none, List.replicate 32 0⟩ [112, 101, 109, 8]
    (toyOaepEnc 5 (List.replicate 32 9)) 8 rfl
    (by show (256 : Nat) ≤ (List.replicate 32 9 ++ List.replicate 224 5 : List Nat).length
        rw [List.length_append, List.length_replicate, List.length_replicate])).1

/-- Claim C8: wrap precondition.  `CryptoHelper::EncryptAESKeyWithPeer`
fails (throws, modelled as the `Except.error` branch) whenever no peer
public key has been loaded; once a peer key is loaded it succeeds and
wraps the stored session key under that key with OAEP padding. -/
theorem wrap_requires_peer_key
    (oaepEnc : Nat → List Nat → List Nat) (st : CryptoState) :
    (st.peerPublicKey = none →
       EncryptAESKeyWithPeer oaepEnc st = .error "Peer public key is not loaded.") ∧
    (∀ pk : Nat, st.peerPublicKey = some pk →
       EncryptAESKeyWithPeer oaepEnc st = .ok (oaepEnc pk st.aesKey)) := by
  constructor
  · intro h
    simp [EncryptAESKeyWithPeer, h]
  · intro pk h
    simp [EncryptAESKeyWithPeer, h]

theorem wrap_requires_peer_key_witness :
    EncryptAESKeyWithPeer toyOaepEnc ⟨1, 2, none, List.replicate 32 0⟩
      = .error "Peer public key is not loaded." ∧
    EncryptAESKeyWithPeer toyOaepEnc ⟨1, 2, some 9, List.replicate 32 0⟩
      = .ok (toyOaepEnc 9 (List.replicate 32 0)) :=
  ⟨(wrap_requires_peer_key toyOaepEnc ⟨1, 2, none, List.replicate 32 0⟩).1 rfl,
   (wrap_requires_peer_key toyOaepEnc ⟨1, 2, some 9, List.replicate 32 0⟩).2 9 rfl⟩

end NightRider
